import Mathlib

/-!
Verification of the auto-expander trigger-compilation and expansion engine.

This file gives a shallow embedding, in Lean, of the pure algorithmic core of
the plugin (trigger compilation, trigger matching, snippet validation and
indexing, the text-replacement pipeline, and editor-position conversion), and
proves properties of those definitions.

Modelling conventions:
* JS strings are modelled as `List Char`; all offsets are character offsets
  (the inputs considered here are ASCII, where UTF-16 code-unit offsets and
  character offsets coincide).
* The host regex engine is external.  The two specific regular expressions the
  source hard-codes (the cursor-marker regex and the capture-group-reference
  regex) are embedded directly as character-level matchers; patterns built by
  `compileTrigger` are interpreted through an explicit `ExecFn` oracle, with
  concrete instances for the pattern shapes the theorems need (an escaped
  literal followed by the empty named group `(?<CURSOR>)`, and the empty named
  group followed by a literal).
* `new RegExp(...)` throwing on an invalid pattern is modelled by a
  `validPattern : Str → Bool` oracle parameter: the `catch` branch of
  `compileTrigger` is taken exactly when the oracle rejects the pattern.
* The wall-clock safeguard in `matchesTrigger` is modelled as an iteration
  budget (`fuel`): the source checks elapsed time once per scan iteration, so
  the abort-and-return-false path corresponds to exhausting the budget.
-/

set_option autoImplicit false

namespace AutoExpander

/-- Strings as lists of characters. -/
abbrev Str := List Char

/-- Character list of a Lean string literal. -/
def strOf (s : String) : Str := s.data

/-- Characters escaped by `escapeRegex`, from the character class in
`/[.*+?^${}()|[\]\\]/g` (`src/core.ts`). -/
def isRegexSpecial (c : Char) : Bool :=
  c == '.' || c == '*' || c == '+' || c == '?' || c == '^' || c == '$' ||
  c == '{' || c == '}' || c == '(' || c == ')' || c == '|' || c == '[' ||
  c == ']' || c == '\\'

/-- `escapeRegex` from `src/core.ts`: prefix every regex metacharacter with a
backslash. -/
def escapeRegex : Str → Str
  | [] => []
  | c :: rest => (if isRegexSpecial c then ['\\', c] else [c]) ++ escapeRegex rest

/-- Longest prefix made of characters other than `'}'`, with the remainder
(the behaviour of the greedy `[^}]+` / `[^}]*` pieces of the marker regexes). -/
def spanNonBrace : Str → Str × Str
  | [] => ([], [])
  | c :: rest =>
    if c == '}' then ([], c :: rest)
    else
      let (run, rem) := spanNonBrace rest
      (c :: run, rem)

/-- Match the cursor-marker regex `/\$\{?0(?::([^}]+))?\}?/` at the head of
`s` (`CURSOR_MARKER_REGEX` in `src/core.ts`).  Returns the number of
characters consumed and the contents of capture group 1 (the options segment)
when that group participated in the match. -/
def matchMarkerAt (s : Str) : Option (Nat × Option Str) :=
  match s with
  | '$' :: rest =>
    let (braceLen, afterBrace) :=
      match rest with
      | '{' :: r => (1, r)
      | r => ((0 : Nat), r)
    match afterBrace with
    | '0' :: afterZero =>
      let (optLen, group, afterOpt) :=
        match afterZero with
        | ':' :: r =>
          let (run, rem) := spanNonBrace r
          if run.isEmpty then ((0 : Nat), (none : Option Str), afterZero)
          else (1 + run.length, some run, rem)
        | _ => ((0 : Nat), (none : Option Str), afterZero)
      let closeLen : Nat :=
        match afterOpt with
        | '}' :: _ => 1
        | _ => 0
      some (1 + braceLen + 1 + optLen + closeLen, group)
    | _ => none
  | _ => none

/-- Global scan of the cursor-marker regex over `source`
(`CURSOR_MARKER_GLOBAL_REGEX.exec` driven by `lastIndex`): produces the list
of `(index, length, group1)` for each successive match.  Every match consumes
at least two characters, so a budget of `s.length` steps never runs out. -/
def scanMarkersAux : Nat → Str → Nat → List (Nat × Nat × Option Str)
  | 0, _, _ => []
  | _, [], _ => []
  | fuel + 1, s@(_ :: rest), i =>
    match matchMarkerAt s with
    | some (len, g) => (i, len, g) :: scanMarkersAux fuel (s.drop len) (i + len)
    | none => scanMarkersAux fuel rest (i + 1)

/-- All matches of the cursor-marker regex in `s`, left to right. -/
def scanMarkers (s : Str) : List (Nat × Nat × Option Str) :=
  scanMarkersAux s.length s 0

/-- `text.slice(a, b)` for `a ≤ b`. -/
def strSlice (s : Str) (a b : Nat) : Str := (s.drop a).take (b - a)

/-- JS `String.prototype.trim`. -/
def trimChars (s : Str) : Str :=
  ((s.dropWhile Char.isWhitespace).reverse.dropWhile Char.isWhitespace).reverse

/-- Split on `','` (JS `String.prototype.split(',')`). -/
def splitOnComma : Str → List Str
  | [] => [[]]
  | c :: rest =>
    if c == ',' then [] :: splitOnComma rest
    else
      match splitOnComma rest with
      | [] => [[c]]
      | g :: gs => (c :: g) :: gs

/-- `VALID_TRIGGER_OPTIONS` from `src/snippet-utils.ts`. -/
def VALID_TRIGGER_OPTIONS : List Str :=
  [strOf "instant", strOf "space", strOf "tab", strOf "enter",
   strOf "newline", strOf "backspace"]

/-- `parseCursorMarkerOptions` from `src/snippet-utils.ts`: first marker match
in the trigger; its options segment split on commas, trimmed, and filtered
against the recognized vocabulary. -/
def parseCursorMarkerOptions (trigger : Str) : List Str :=
  match (scanMarkers trigger).head? with
  | none => []
  | some (_, _, group) =>
    match group with
    | none => []
    | some seg =>
      ((splitOnComma seg).map trimChars).filter
        (fun o => !o.isEmpty && VALID_TRIGGER_OPTIONS.contains o)

/-- Result record of `processTriggerPattern` (`src/core.ts`). -/
structure TriggerProcessingResult where
  pattern : Str
  options : List Str
  foundCursorMarker : Bool
  deriving DecidableEq, Repr

/-- The `markerOptions` computation shared by `processTriggerPattern` and the
flexible-cursor branch of `compileTrigger`:
`match[1] ? parseCursorMarkerOptions(match[0]) : ['instant']` followed by
`markerOptions.length > 0 ? markerOptions : ['instant']`. -/
def markerOptionsOf (source : Str) (idx len : Nat) (group : Option Str) : List Str :=
  let markerOptions :=
    match group with
    | some gs =>
      if gs.isEmpty then [strOf "instant"]
      else parseCursorMarkerOptions (strSlice source idx (idx + len))
    | none => [strOf "instant"]
  if markerOptions.isEmpty then [strOf "instant"] else markerOptions

/-- The `parts` assembly loop of `processTriggerPattern`: literal chunks
(escaped when `escapeLiterals`) interleaved with `(?<CURSOR>)` at each marker
occurrence, then the trailing chunk. -/
def buildPattern (source : Str) (escapeLiterals : Bool) :
    List (Nat × Nat × Option Str) → Nat → Str
  | [], lastIndex =>
    let chunk := source.drop lastIndex
    if escapeLiterals then escapeRegex chunk else chunk
  | (idx, len, _) :: ms, lastIndex =>
    let chunk := strSlice source lastIndex idx
    (if escapeLiterals then escapeRegex chunk else chunk) ++ strOf "(?<CURSOR>)" ++
      buildPattern source escapeLiterals ms (idx + len)

/-- The options selected by the `!foundCursorMarker` guard inside the loop of
`processTriggerPattern`: they come from the first marker occurrence only. -/
def firstMarkerOptions (source : Str) : List (Nat × Nat × Option Str) → List Str
  | [] => []
  | (idx, len, g) :: _ => markerOptionsOf source idx len g

/-- `processTriggerPattern` from `src/core.ts`. -/
def processTriggerPattern (source : Str) (escapeLiterals : Bool) : TriggerProcessingResult :=
  let markers := scanMarkers source
  { pattern := buildPattern source escapeLiterals markers 0
    options := firstMarkerOptions source markers
    foundCursorMarker := !markers.isEmpty }

/-- The compiled-trigger record returned by `compileTrigger` (`src/core.ts`).
The `regex` field of the source is represented by its pattern source string
(the flags are always `'dg'`). -/
structure CompiledTrigger where
  pattern : Str
  options : List Str
  hasCursorMarker : Bool
  isExplicitRegex : Bool
  allowsFlexibleCursor : Bool
  deriving DecidableEq, Repr

/-- `trigger.startsWith('/') && trigger.endsWith('/') && trigger.length > 2`. -/
def isExplicitRegexTrigger (trigger : Str) : Bool :=
  trigger.head? == some '/' && trigger.getLast? == some '/' &&
    decide (trigger.length > 2)

/-- Intermediate state of `compileTrigger` just before the `new RegExp` call:
the processed pattern, the options, and the two marker flags. -/
structure CompileParts where
  processed : Str
  options : List Str
  hasCursorMarker : Bool
  allowsFlexibleCursor : Bool
  deriving DecidableEq, Repr

/-- The standard-processing arm used for regex triggers whose marker is not at
the start (`src/core.ts`, the branch logging "standard processing"); note the
`['instant']` default. -/
def standardRegexParts (patternToProcess : Str) : CompileParts :=
  let r := processTriggerPattern patternToProcess false
  { processed := r.pattern
    options := if r.foundCursorMarker then r.options else [strOf "instant"]
    hasCursorMarker := r.foundCursorMarker
    allowsFlexibleCursor := false }

/-- The processing phase of `compileTrigger` (`src/core.ts`), covering all
branches up to (but not including) the `try { new RegExp(...) }`. -/
def compileParts (trigger : Str) (isRegex : Bool) : CompileParts :=
  let isExplicit := isExplicitRegexTrigger trigger
  if isExplicit || isRegex then
    let patternToProcess := if isExplicit then (trigger.drop 1).dropLast else trigger
    if isRegex && !isExplicit then
      match (scanMarkers patternToProcess).head? with
      | some (idx, len, g) =>
        if idx = 0 then
          { processed := patternToProcess.drop len
            options := markerOptionsOf patternToProcess idx len g
            hasCursorMarker := true
            allowsFlexibleCursor := true }
        else standardRegexParts patternToProcess
      | none => standardRegexParts patternToProcess
    else
      let r := processTriggerPattern patternToProcess false
      { processed := r.pattern
        options := if r.foundCursorMarker then r.options else []
        hasCursorMarker := r.foundCursorMarker
        allowsFlexibleCursor := false }
  else
    let r := processTriggerPattern trigger true
    { processed := if r.foundCursorMarker then r.pattern else r.pattern ++ strOf "(?<CURSOR>)"
      options := if r.foundCursorMarker then r.options else [strOf "instant"]
      hasCursorMarker := r.foundCursorMarker
      allowsFlexibleCursor := false }

/-- `compileTrigger` from `src/core.ts`.  `validPattern` is the host-engine
oracle: `new RegExp(p, 'dg')` succeeds exactly when `validPattern p = true`;
the `else` branch below is the `catch` fallback (its own `new RegExp` call is
on an escaped literal, which is always valid syntax). -/
def compileTrigger (trigger : Str) (isRegex : Bool) (validPattern : Str → Bool) :
    CompiledTrigger :=
  let parts := compileParts trigger isRegex
  if validPattern parts.processed then
    { pattern := parts.processed
      options := if parts.options.isEmpty then [strOf "instant"] else parts.options
      hasCursorMarker := parts.hasCursorMarker
      isExplicitRegex := isExplicitRegexTrigger trigger
      allowsFlexibleCursor := parts.allowsFlexibleCursor }
  else
    { pattern := escapeRegex trigger ++ strOf "(?<CURSOR>)"
      options := [strOf "instant"]
      hasCursorMarker := false
      isExplicitRegex := false
      allowsFlexibleCursor := false }

/-- `eventTypeAllowed` from `src/core.ts`. -/
def eventTypeAllowed (eventType : Str) (options : List Str) : Bool :=
  if options.isEmpty then true
  else if options.contains eventType then true
  else if eventType == strOf "enter" && options.contains (strOf "newline") then true
  else if eventType == strOf "newline" && options.contains (strOf "enter") then true
  else false

/-- The data `matchesTrigger` reads off one `RegExpExecArray` (with the `d`
flag, so match indices are always available): the overall match range and the
range of the named `CURSOR` group when it participated. -/
structure MatchInfo where
  start : Nat
  stop : Nat
  cursorGroup : Option (Nat × Nat)
  deriving DecidableEq, Repr

/-- A host-regex oracle: `exec input lastIndex` is the leftmost match of the
compiled pattern starting at or after `lastIndex`, as `regex.exec` produces it
when `regex.lastIndex = lastIndex`. -/
def ExecFn : Type := Str → Nat → Option MatchInfo

/-- The `while ((match = regex.exec(input)) !== null)` loop of `matchesTrigger`
(`src/core.ts`).  `fuel` models the wall-clock safeguard (the elapsed-time
check performed once per iteration); exhausting it is the timed-out path,
which returns `false`.  After each unsuccessful candidate the next scan starts
at the match end (`regex.lastIndex`). -/
def scanMatch (exec : ExecFn) (isExp flex : Bool) (input : Str) (cursorPos : Nat) :
    Nat → Nat → Bool
  | 0, _ => false
  | fuel + 1, lastIndex =>
    match exec input lastIndex with
    | none => false
    | some m =>
      if isExp then true
      else if !flex then
        match m.cursorGroup with
        | some (cursorStart, cursorStop) =>
          if cursorStart ≤ cursorPos ∧ cursorPos ≤ cursorStop then true
          else scanMatch exec isExp flex input cursorPos fuel m.stop
        | none =>
          if cursorPos = m.stop then true
          else scanMatch exec isExp flex input cursorPos fuel m.stop
      else
        if m.start ≤ cursorPos ∧ cursorPos ≤ m.stop then true
        else scanMatch exec isExp flex input cursorPos fuel m.stop

/-- `matchesTrigger` from `src/core.ts`: the scan loop followed by the
activation-kind check; both no-match and timeout produce `false`. -/
def matchesTrigger (exec : ExecFn) (ct : CompiledTrigger) (input : Str)
    (cursorPos : Nat) (eventType : Str) (fuel : Nat) : Bool :=
  if scanMatch exec ct.isExplicitRegex ct.allowsFlexibleCursor input cursorPos fuel 0 then
    eventTypeAllowed eventType ct.options
  else false

/-- `leadsWith lit s`: `lit` is a prefix of `s`. -/
def leadsWith : Str → Str → Bool
  | [], _ => true
  | _ :: _, [] => false
  | a :: as, b :: bs => a == b && leadsWith as bs

/-- Leftmost index `≥ i` at which `lit` occurs, scanning the suffix `s` of the
text (`s` is the text with its first `i` characters dropped). -/
def findOccurAux (lit : Str) : Str → Nat → Option Nat
  | [], i => if leadsWith lit [] then some i else none
  | s@(_ :: t), i => if leadsWith lit s then some i else findOccurAux lit t (i + 1)

/-- Leftmost occurrence of `lit` in `input` at index `≥ i`. -/
def findOccurrenceFrom (lit input : Str) (i : Nat) : Option Nat :=
  findOccurAux lit (input.drop i) i

/-- Host-regex oracle for the pattern `escapeRegex lit ++ "(?<CURSOR>)"`
produced by `compileTrigger` for a placeholder-free literal trigger: the
escaped literal matches exactly the occurrences of `lit`, and the trailing
empty named group gives a zero-width `CURSOR` range at the match end. -/
def execLiteral (lit : Str) : ExecFn := fun input lastIndex =>
  (findOccurrenceFrom lit input lastIndex).map fun s =>
    { start := s, stop := s + lit.length,
      cursorGroup := some (s + lit.length, s + lit.length) }

/-- Host-regex oracle for a pattern of the shape `"(?<CURSOR>)" ++ lit` (an
empty named group followed by a literal), e.g. the compiled form
`(?<CURSOR>)(abc)` of the trigger `/${0:instant}(abc)/`: matches are the
occurrences of `lit`, with a zero-width `CURSOR` range at the match start. -/
def execLeadCursorLit (lit : Str) : ExecFn := fun input lastIndex =>
  (findOccurrenceFrom lit input lastIndex).map fun s =>
    { start := s, stop := s + lit.length, cursorGroup := some (s, s) }

/-- End offsets of the leftmost non-overlapping occurrences of `lit` in the
text, scanning left to right and resuming after each occurrence — the
occurrences a global regex scan visits.  (Stated over the suffix `s` of the
text starting at absolute index `i`; empty `lit` yields nothing.) -/
def nonOverlapEndsFrom (lit : Str) : Str → Nat → List Nat
  | s, i =>
    if h : lit ≠ [] ∧ leadsWith lit s = true then
      (i + lit.length) :: nonOverlapEndsFrom lit (s.drop lit.length) (i + lit.length)
    else
      match s with
      | [] => []
      | _ :: t => nonOverlapEndsFrom lit t (i + 1)
  termination_by s _ => s.length
  decreasing_by
  · obtain ⟨h1, h2⟩ := h
    cases lit with
    | nil => exact absurd rfl h1
    | cons a as =>
      cases s with
      | nil => simp [leadsWith] at h2
      | cons b bs => simp only [List.length_drop, List.length_cons]; omega
  · simp

/-- `cursor = end of some occurrence of lit in text` (any occurrence, possibly
overlapping an earlier one) — the acceptance condition as the specification
states it for placeholder-free literal triggers. -/
def occursEndingAt (lit text : Str) (e : Nat) : Bool :=
  (List.range (text.length + 1)).any fun s =>
    leadsWith lit (text.drop s) && s + lit.length == e

/-- A raw snippet field that may hold a string or an array of strings. -/
inductive StrOrList where
  | str (s : Str)
  | arr (ss : List Str)
  deriving DecidableEq, Repr

/-- Raw `Snippet` record (`src/types.ts`), as produced by the JSONC parser. -/
structure Snippet where
  trigger : Str
  replacement : Option StrOrList := none
  commands : Option StrOrList := none
  regex : Option Bool := none
  deriving DecidableEq, Repr

/-- `ParsedSnippet` record (`src/types.ts`).  The absent `error` field is
`none`. -/
structure ParsedSnippet where
  id : Str
  trigger : Str
  replacement : List Str
  commands : List Str
  cursorMarkerOptions : List Str
  regex : Bool
  isValid : Bool
  error : Option Str := none
  deriving DecidableEq, Repr

/-- The normalization applied to `replacement` and `commands` in
`validateAndParseSnippets`: `if (field) { string → [field]; array → keep }`.
JS truthiness makes the empty string fall through to `[]`. -/
def normalizeField : Option StrOrList → List Str
  | none => []
  | some (StrOrList.str s) => if s.isEmpty then [] else [s]
  | some (StrOrList.arr ss) => ss

/-- The id `snippet-${i}`. -/
def mkSnippetId (i : Nat) : Str := strOf "snippet-" ++ (Nat.repr i).data

/-- Loop body of `validateAndParseSnippets` (`src/snippet-utils.ts`), with the
`triggerSet` accumulator made explicit.  The `try` body is total (no statement
in it can throw), so the `catch` arm is unreachable and not modelled. -/
def validateAndParseSnippetsAux : List Snippet → Nat → List Str → List ParsedSnippet
  | [], _, _ => []
  | s :: rest, i, seen =>
    if seen.contains s.trigger then
      { id := mkSnippetId i, trigger := s.trigger, replacement := [], commands := [],
        cursorMarkerOptions := [], regex := s.regex == some true, isValid := false,
        error := some (strOf "Duplicate trigger") }
        :: validateAndParseSnippetsAux rest (i + 1) seen
    else
      { id := mkSnippetId i, trigger := s.trigger,
        replacement := normalizeField s.replacement,
        commands := normalizeField s.commands,
        cursorMarkerOptions := parseCursorMarkerOptions s.trigger,
        regex := s.regex == some true, isValid := true, error := none }
        :: validateAndParseSnippetsAux rest (i + 1) (s.trigger :: seen)

/-- `validateAndParseSnippets` from `src/snippet-utils.ts`. -/
def validateAndParseSnippets (snippets : List Snippet) : List ParsedSnippet :=
  validateAndParseSnippetsAux snippets 0 []

/-- The per-snippet activation options used when building the snippet map:
`cursorMarkerOptions.length > 0 ? cursorMarkerOptions : ['instant']`. -/
def effectiveOptions (s : ParsedSnippet) : List Str :=
  if s.cursorMarkerOptions.isEmpty then [strOf "instant"] else s.cursorMarkerOptions

/-- `createSnippetMap(parsed).get(action) || []` (`src/snippet-utils.ts`): the
map is built by pushing each valid snippet once per occurrence of `action`
among its effective options, in list order; invalid snippets are skipped. -/
def createSnippetMapGet (parsed : List ParsedSnippet) (action : Str) : List ParsedSnippet :=
  parsed.flatMap fun s =>
    if s.isValid then ((effectiveOptions s).filter (fun a => a == action)).map (fun _ => s)
    else []

/-- A match span as the text-replacement service reads it from `indices[0]`
(`src/services/text-replacement-service.ts`).  JS numbers are modelled as
integers: `range.end - 1` may go below zero before the `Math.max` clamp. -/
structure ReplRange where
  start : Int
  stop : Int
  deriving DecidableEq, Repr

/-- `adjustRangeForBackspace` from `src/services/text-replacement-service.ts`. -/
def adjustRangeForBackspace (range : ReplRange) (triggerAction : Str) : ReplRange :=
  if triggerAction ≠ strOf "backspace" then range
  else { start := range.start, stop := max range.start (range.stop - 1) }

/-- Match the replacement-text cursor-marker regex `/\$\{?0(?::[^}]*)?\}?/`
(`src/services/text-replacement-service.ts`; note `[^}]*`, unlike the `[^}]+`
of the trigger marker) at the head of `s`; returns the characters consumed. -/
def matchReplMarkerAt (s : Str) : Option Nat :=
  match s with
  | '$' :: rest =>
    let (braceLen, afterBrace) :=
      match rest with
      | '{' :: r => (1, r)
      | r => ((0 : Nat), r)
    match afterBrace with
    | '0' :: afterZero =>
      let (optLen, afterOpt) :=
        match afterZero with
        | ':' :: r =>
          let (run, rem) := spanNonBrace r
          (1 + run.length, rem)
        | _ => ((0 : Nat), afterZero)
      let closeLen : Nat :=
        match afterOpt with
        | '}' :: _ => 1
        | _ => 0
      some (1 + braceLen + 1 + optLen + closeLen)
    | _ => none
  | _ => none

/-- First match (index and length) of the replacement cursor-marker regex. -/
def findReplMarkerAux : Str → Nat → Option (Nat × Nat)
  | [], _ => none
  | s@(_ :: t), i =>
    match matchReplMarkerAt s with
    | some len => some (i, len)
    | none => findReplMarkerAux t (i + 1)

/-- `findCursorPositionInReplacement`: index of the first cursor marker in the
replacement text; the source's `-1` sentinel is modelled as `none`. -/
def findCursorPositionInReplacement (replacementText : Str) : Option Nat :=
  (findReplMarkerAux replacementText 0).map Prod.fst

/-- Global-replace scan of `removeCursorMarkers` (`replace(/.../g, '')`).
Every marker is at least two characters long, so a budget of `text.length`
steps never runs out. -/
def removeCursorMarkersAux : Nat → Str → Str
  | 0, s => s
  | _ + 1, [] => []
  | fuel + 1, s@(c :: rest) =>
    match matchReplMarkerAt s with
    | some len => removeCursorMarkersAux fuel (s.drop len)
    | none => c :: removeCursorMarkersAux fuel rest

/-- `removeCursorMarkers` from `src/services/text-replacement-service.ts`. -/
def removeCursorMarkers (text : Str) : Str := removeCursorMarkersAux text.length text

/-- `lines.join('\n')`. -/
def joinLines : List Str → Str
  | [] => []
  | [l] => l
  | l :: ls => l ++ '\n' :: joinLines ls

/-- `positionCursor` from `src/services/text-replacement-service.ts`, as the
character offset passed to `editor.setCursor` (`none` when the method returns
without setting the cursor).  The source's lower-bounds check
`cursorPosInFinalText >= 0` is vacuous over `Nat`. -/
def positionCursor (replacementLines : List Str) (replacementStartIndex : Nat)
    (textAfterReplacement : Str) : Option Nat :=
  match findCursorPositionInReplacement (joinLines replacementLines) with
  | none => none
  | some cursorPosInReplacement =>
    let cursorPosInFinalText := replacementStartIndex + cursorPosInReplacement
    if cursorPosInFinalText ≤ textAfterReplacement.length then some cursorPosInFinalText
    else none

/-- `match[i]` of a live `RegExpExecArray`: entry `0` is the full match,
entries past the array length are `undefined` (`none`). -/
def mGet (m : List (Option Str)) (i : Nat) : Option Str := (m.get? i).join

/-- Greedy run of decimal digits (`(\d+)`), with the remainder. -/
def spanDigits : Str → Str × Str
  | [] => ([], [])
  | c :: rest =>
    if c.isDigit then ((c :: (spanDigits rest).1), (spanDigits rest).2)
    else ([], c :: rest)

/-- `parseInt(ds, 10)` on a digit string. -/
def digitsToNat (ds : Str) : Nat :=
  ds.foldl (fun n c => n * 10 + (c.toNat - '0'.toNat)) 0

/-- The replacement callback of `substituteCaptureGroups`: resolve `$ds`
against the live match, shifting the index down by one when the first capture
group captured the empty string, and keeping the reference text verbatim when
the resolved group is `undefined`. -/
def resolveGroupRef (m : List (Option Str)) (ds : Str) : Str :=
  let index := digitsToNat ds
  let actualIndex := if index > 1 ∧ mGet m 1 = some [] then index - 1 else index
  match mGet m actualIndex with
  | none => '$' :: ds
  | some v => v

/-- Scan of `text.replace(/\$(\d+)/g, cb)`: a `$` followed by at least one
digit is a reference; anything else passes through.  Each replaced reference
consumes at least two characters, so a budget of `text.length` steps never
runs out. -/
def substituteCaptureGroupsAux (m : List (Option Str)) : Nat → Str → Str
  | 0, s => s
  | _ + 1, [] => []
  | fuel + 1, c :: rest =>
    if c = '$' then
      match spanDigits rest with
      | ([], _) => c :: substituteCaptureGroupsAux m fuel rest
      | (d :: ds, rem) => resolveGroupRef m (d :: ds) ++ substituteCaptureGroupsAux m fuel rem
    else c :: substituteCaptureGroupsAux m fuel rest

/-- `substituteCaptureGroups` from `src/services/text-replacement-service.ts`. -/
def substituteCaptureGroups (text : Str) (m : List (Option Str)) : Str :=
  substituteCaptureGroupsAux m text.length text

/-- `{line, ch}` editor positions (`src/utils/editor-position.ts`). -/
structure EditorCursorPosition where
  line : Nat
  ch : Nat
  deriving DecidableEq, Repr

/-- `text.split('\n')`. -/
def splitNl : Str → List Str
  | [] => [[]]
  | c :: rest =>
    if c = '\n' then [] :: splitNl rest
    else
      match splitNl rest with
      | [] => [[c]]
      | l :: ls => (c :: l) :: ls

/-- The summation loop of `getCursorCharIndex`: for each `lineIndex` below the
cursor line, add `(lines[lineIndex] ?? '').length` plus one for the newline
when `lineIndex < lines.length - 1`.  Indices past the end contribute zero. -/
def sumLinesTo : List Str → Nat → Nat
  | _, 0 => 0
  | [], _ + 1 => 0
  | [l], n + 1 => l.length + sumLinesTo [] n
  | l :: ls, n + 1 => l.length + 1 + sumLinesTo ls n

/-- `getCursorCharIndex` from `src/utils/editor-position.ts`. -/
def getCursorCharIndex (text : Str) (cursor : EditorCursorPosition) : Nat :=
  sumLinesTo (splitNl text) cursor.line + cursor.ch

/-- The scanning loop of `charIndexToEditorPos`, with the `line` counter and
`currentIndex` accumulator explicit.  The singleton case has
`newlineLength = 0` and its else-arm is the after-loop fallback
`{line: lastLineIndex, ch: lastLine.length}`; the `[]` case is the fallback's
`lines[lastLineIndex] ?? ''` degenerate form.  All reachable calls keep
`currentIndex ≤ charIndex`, so `Nat` subtraction is exact. -/
def cipGo : List Str → Nat → Nat → Nat → EditorCursorPosition
  | [], _, _, _ => { line := 0, ch := 0 }
  | [l], line, currentIndex, charIndex =>
    if currentIndex + l.length > charIndex then
      { line := line, ch := charIndex - currentIndex }
    else { line := line, ch := l.length }
  | l :: ls, line, currentIndex, charIndex =>
    let lineEnd := currentIndex + l.length + 1
    if lineEnd > charIndex then { line := line, ch := charIndex - currentIndex }
    else cipGo ls (line + 1) lineEnd charIndex

/-- `charIndexToEditorPos` from `src/utils/editor-position.ts`. -/
def charIndexToEditorPos (text : Str) (charIndex : Nat) : EditorCursorPosition :=
  cipGo (splitNl text) 0 0 charIndex

/-- Total character span of a split-line list (content plus one newline per
non-final line); equals the length of the text the list was split from. -/
def lineSpanLen : List Str → Nat
  | [] => 0
  | [l] => l.length
  | l :: ls => l.length + 1 + lineSpanLen ls

/-- Observable steps of one `SnippetExecutor.executeSnippet` run
(`src/services/snippet-executor.ts`), in program order. -/
inductive ExecEffect where
  | setExecutingFlag
  | replaceBuffer
  | runCommands
  | showErrorNotice
  | clearExecutingFlag
  deriving DecidableEq, Repr

/-- The executor's only mutable state: the private `executing` flag. -/
structure ExecutorState where
  executing : Bool
  deriving DecidableEq, Repr

/-- Control-flow model of `SnippetExecutor.executeSnippet`: the re-entrancy
guard, then `executing = true`, the try-body (match lookup, text replacement,
command execution — `matchFound` abstracts whether `findSnippetMatch`
succeeds, `bodyThrows` whether the awaited steps throw, in which case the
`catch` arm shows a notice), and the `finally` that clears the flag.  The
buffer-mutation and command contents are modelled elsewhere
(`adjustRangeForBackspace`, `substituteCaptureGroups`, `positionCursor`);
here only their order relative to the flag matters. -/
def executeSnippet (s : ExecutorState) (matchFound bodyThrows : Bool) :
    ExecutorState × List ExecEffect :=
  if s.executing then (s, [])
  else
    let body :=
      if !matchFound then []
      else if bodyThrows then [ExecEffect.replaceBuffer, ExecEffect.showErrorNotice]
      else [ExecEffect.replaceBuffer, ExecEffect.runCommands]
    ({ executing := false },
      ExecEffect.setExecutingFlag :: body ++ [ExecEffect.clearExecutingFlag])

/-- Claim C5: `compileTrigger` never throws; whenever compiling the processed
pattern fails (the host `new RegExp` oracle rejects it), the result is the
entire original trigger text regex-escaped with a cursor marker appended,
options exactly `["instant"]`, `isExplicitRegex = false`, and
`allowsFlexibleCursor = false`. -/
theorem c5_compile_fallback (trigger : Str) (isRegex : Bool) (validPattern : Str → Bool)
    (h : validPattern (compileParts trigger isRegex).processed = false) :
    compileTrigger trigger isRegex validPattern =
      { pattern := escapeRegex trigger ++ strOf "(?<CURSOR>)"
        options := [strOf "instant"]
        hasCursorMarker := false
        isExplicitRegex := false
        allowsFlexibleCursor := false } := by
  simp [compileTrigger, h]

/-- Claim C5 witness: a trigger whose processed pattern the host engine
rejects degrades to the escaped-literal fallback. -/
theorem c5_compile_fallback_witness :
    compileTrigger (strOf "([") false (fun _ => false) =
      { pattern := escapeRegex (strOf "([") ++ strOf "(?<CURSOR>)"
        options := [strOf "instant"]
        hasCursorMarker := false
        isExplicitRegex := false
        allowsFlexibleCursor := false } :=
  c5_compile_fallback (strOf "([") false (fun _ => false) rfl

/-- Claim C7: for activation kind `"backspace"` the span's end is shrunk by
exactly one character (clamped to never go below the span's start) while the
start is unchanged, and for every other activation kind the span is returned
unchanged. -/
theorem c7_backspace_span (range : ReplRange) (action : Str) :
    (action = strOf "backspace" →
      (adjustRangeForBackspace range action).start = range.start ∧
      (range.start < range.stop → (adjustRangeForBackspace range action).stop + 1 = range.stop) ∧
      range.start ≤ (adjustRangeForBackspace range action).stop) ∧
    (action ≠ strOf "backspace" → adjustRangeForBackspace range action = range) := by
  unfold adjustRangeForBackspace
  constructor
  · intro h
    rw [if_neg (show ¬(action ≠ strOf "backspace") from fun hn => hn h)]
    refine ⟨rfl, fun hlt => ?_, ?_⟩
    · show max range.start (range.stop - 1) + 1 = range.stop
      rw [max_eq_right (by omega)]
      omega
    · show range.start ≤ max range.start (range.stop - 1)
      exact le_max_left _ _
  · intro h
    rw [if_pos h]

/-- Claim C7 witness: the span `[0, 5)` under `"backspace"` becomes `[0, 4)`,
and under `"space"` is unchanged. -/
theorem c7_backspace_span_witness :
    (adjustRangeForBackspace ⟨0, 5⟩ (strOf "backspace")).start = 0 ∧
    (adjustRangeForBackspace ⟨0, 5⟩ (strOf "backspace")).stop + 1 = 5 ∧
    (0 : Int) ≤ (adjustRangeForBackspace ⟨0, 5⟩ (strOf "backspace")).stop ∧
    adjustRangeForBackspace ⟨0, 5⟩ (strOf "space") = ⟨0, 5⟩ :=
  ⟨((c7_backspace_span ⟨0, 5⟩ (strOf "backspace")).1 rfl).1,
   ((c7_backspace_span ⟨0, 5⟩ (strOf "backspace")).1 rfl).2.1 (by decide),
   ((c7_backspace_span ⟨0, 5⟩ (strOf "backspace")).1 rfl).2.2,
   (c7_backspace_span ⟨0, 5⟩ (strOf "space")).2 (by decide)⟩

/-- Claim C8 counterexample: for a replacement with no cursor marker,
`positionCursor` does not position the cursor at the end of the inserted
replacement text (offset `3` here) — it returns without setting the cursor at
all. -/
theorem c8_no_marker_counterexample :
    positionCursor [strOf "abc"] 0 (strOf "abcxyz") ≠ some 3 ∧
    positionCursor [strOf "abc"] 0 (strOf "abcxyz") = none := by
  decide

/-- Claim C8 (amended): the cursor's target offset is the replacement start
plus the index of the first cursor marker in the (marker-bearing) replacement
text, when that lies inside the post-replacement text; when the replacement
contains no cursor marker, `positionCursor` sets no cursor at all. -/
theorem c8_cursor_positioning (replacementLines : List Str) (start : Nat)
    (textAfter : Str) :
    (∀ i, findCursorPositionInReplacement (joinLines replacementLines) = some i →
      start + i ≤ textAfter.length →
      positionCursor replacementLines start textAfter = some (start + i)) ∧
    (findCursorPositionInReplacement (joinLines replacementLines) = none →
      positionCursor replacementLines start textAfter = none) := by
  constructor
  · intro i hi hle
    simp [positionCursor, hi, hle]
  · intro h
    simp [positionCursor, h]

/-- Claim C8 witness: replacement `"By the way$0"` inserted at offset 4 puts
the cursor at offset 14 of the resulting buffer. -/
theorem c8_cursor_positioning_witness :
    positionCursor [strOf "By the way$0"] 4 (strOf "foo\nBy the way\nbar") = some 14 :=
  (c8_cursor_positioning [strOf "By the way$0"] 4 (strOf "foo\nBy the way\nbar")).1
    10 (by decide) (by decide)

/-- Claim C4: at most one expansion at a time.  If an execution is already in
progress, `executeSnippet` returns immediately with no effects (in particular
no buffer mutation); otherwise the `executing` flag is set before everything
else, cleared last (after commands finish or error), and the run ends with the
flag cleared. -/
theorem c4_single_execution (s : ExecutorState) (matchFound bodyThrows : Bool) :
    (s.executing = true → executeSnippet s matchFound bodyThrows = (s, []) ∧
      ExecEffect.replaceBuffer ∉ (executeSnippet s matchFound bodyThrows).2) ∧
    (s.executing = false →
      (executeSnippet s matchFound bodyThrows).1.executing = false ∧
      ∃ body, (executeSnippet s matchFound bodyThrows).2 =
          ExecEffect.setExecutingFlag :: body ++ [ExecEffect.clearExecutingFlag] ∧
        ExecEffect.setExecutingFlag ∉ body ∧ ExecEffect.clearExecutingFlag ∉ body) := by
  obtain ⟨e⟩ := s
  cases e
  · refine ⟨by simp, fun _ => ⟨rfl, ?_⟩⟩
    cases matchFound <;> cases bodyThrows
    · exact ⟨[], rfl, by decide, by decide⟩
    · exact ⟨[], rfl, by decide, by decide⟩
    · exact ⟨[ExecEffect.replaceBuffer, ExecEffect.runCommands], rfl, by decide, by decide⟩
    · exact ⟨[ExecEffect.replaceBuffer, ExecEffect.showErrorNotice], rfl, by decide, by decide⟩
  · exact ⟨fun _ => ⟨by simp [executeSnippet], by simp [executeSnippet]⟩, by simp⟩

/-- Claim C4 witness: a call arriving while an execution is in progress
produces no effects; a call in the idle state produces a set-flag-first,
clear-flag-last trace. -/
theorem c4_single_execution_witness :
    executeSnippet ⟨true⟩ true false = (⟨true⟩, []) ∧
    (executeSnippet ⟨false⟩ true false).1.executing = false :=
  ⟨((c4_single_execution ⟨true⟩ true false).1 rfl).1,
   ((c4_single_execution ⟨false⟩ true false).2 rfl).1⟩

/-- Claim C1 counterexample: `compileTrigger` on the `/…/`-wrapped trigger
`"/${0:instant}(abc)/"` does not mark the trigger cursor-flexible, and the
leading placeholder is not removed but substituted by the empty named group
`(?<CURSOR>)`. -/
theorem c1_not_flexible_counterexample :
    (compileTrigger (strOf "/${0:instant}(abc)/") false (fun _ => true)).allowsFlexibleCursor
        = false ∧
    (compileTrigger (strOf "/${0:instant}(abc)/") false (fun _ => true)).pattern
        = strOf "(?<CURSOR>)(abc)" := by
  decide

/-- Claim C1 (amended): for an explicit-regex compiled trigger,
`matchesTrigger` short-circuits on the first match of the pattern, accepting
at every cursor offset (so in particular at every offset inside the matched
span), subject only to the activation-kind check. -/
theorem c1_explicit_regex_acceptance (exec : ExecFn) (ct : CompiledTrigger)
    (input : Str) (cursorPos : Nat) (eventType : Str) (fuel : Nat)
    (hexp : ct.isExplicitRegex = true) (hfuel : 1 ≤ fuel)
    (m : MatchInfo) (hexec : exec input 0 = some m) :
    matchesTrigger exec ct input cursorPos eventType fuel =
      eventTypeAllowed eventType ct.options := by
  obtain ⟨fuel, rfl⟩ : ∃ f, fuel = f + 1 :=
    ⟨fuel - 1, by omega⟩
  simp [matchesTrigger, scanMatch, hexec, hexp]

/-- Claim C1 witness: the compiled trigger `"/${0:instant}(abc)/"` against
`"xxabcxx"` is accepted at cursor offset 3 — strictly inside the matched
`"abc"` span — under activation `"instant"`. -/
theorem c1_explicit_regex_acceptance_witness :
    matchesTrigger (execLeadCursorLit (strOf "abc"))
        (compileTrigger (strOf "/${0:instant}(abc)/") false (fun _ => true))
        (strOf "xxabcxx") 3 (strOf "instant") 8 = true :=
  (c1_explicit_regex_acceptance (execLeadCursorLit (strOf "abc"))
      (compileTrigger (strOf "/${0:instant}(abc)/") false (fun _ => true))
      (strOf "xxabcxx") 3 (strOf "instant") 8 (by decide) (by decide)
      { start := 2, stop := 5, cursorGroup := some (2, 2) } (by decide)).trans
    (by decide)

/-- The two halves of `spanDigits` reassemble the input. -/
theorem spanDigits_append (s : Str) : (spanDigits s).1 ++ (spanDigits s).2 = s := by
  induction s with
  | nil => rfl
  | cons c rest ih =>
    by_cases h : c.isDigit
    · simp [spanDigits, h, ih]
    · simp [spanDigits, h]

/-- `spanDigits` splits a digit run from a non-digit-headed remainder. -/
theorem spanDigits_of_digits (ds rest : Str) (hds : ∀ c ∈ ds, c.isDigit = true)
    (hrest : ∀ c ∈ rest.take 1, c.isDigit = false) :
    spanDigits (ds ++ rest) = (ds, rest) := by
  induction ds with
  | nil =>
    cases rest with
    | nil => rfl
    | cons c t =>
      have hc := hrest c (by simp)
      simp [spanDigits, hc]
  | cons d dsx ih =>
    have hd := hds d (List.mem_cons_self _ _)
    have ih' := ih fun c hc => hds c (List.mem_cons_of_mem _ hc)
    simp [spanDigits, hd, ih']

/-- The scan of `substituteCaptureGroups` is insensitive to the fuel once the
fuel covers the input length. -/
theorem substituteCaptureGroupsAux_congr (m : List (Option Str)) :
    ∀ n (s : Str), s.length ≤ n → ∀ f1 f2, s.length ≤ f1 → s.length ≤ f2 →
      substituteCaptureGroupsAux m f1 s = substituteCaptureGroupsAux m f2 s := by
  intro n
  induction n with
  | zero =>
    intro s hs f1 f2 _ _
    have : s = [] := List.length_eq_zero.mp (Nat.le_zero.mp hs)
    subst this
    cases f1 <;> cases f2 <;> rfl
  | succ n ih =>
    intro s hs f1 f2 h1 h2
    cases s with
    | nil => cases f1 <;> cases f2 <;> rfl
    | cons c t =>
      obtain ⟨g1, rfl⟩ : ∃ g, f1 = g + 1 := ⟨f1 - 1, by simp at h1; omega⟩
      obtain ⟨g2, rfl⟩ : ∃ g, f2 = g + 1 := ⟨f2 - 1, by simp at h2; omega⟩
      have ht : t.length ≤ n := by simp at hs; omega
      have ht1 : t.length ≤ g1 := by simp at h1; omega
      have ht2 : t.length ≤ g2 := by simp at h2; omega
      by_cases hc : c = '$'
      · rcases hspan : spanDigits t with ⟨run, rem⟩
        have hlen : run ++ rem = t := by
          have := spanDigits_append t
          rw [hspan] at this
          exact this
        cases run with
        | nil =>
          simp only [substituteCaptureGroupsAux, if_pos hc, hspan]
          rw [ih t ht g1 g2 ht1 ht2]
        | cons d dsx =>
          have hrem : rem.length + dsx.length + 1 = t.length := by
            have := congrArg List.length hlen
            simp at this
            omega
          simp only [substituteCaptureGroupsAux, if_pos hc, hspan]
          rw [ih rem (by omega) g1 g2 (by omega) (by omega)]
      · simp only [substituteCaptureGroupsAux, if_neg hc]
        rw [ih t ht g1 g2 ht1 ht2]

/-- Unfolding lemma: a non-`'$'` head character passes through the
substitution scan unchanged. -/
theorem substituteCaptureGroups_cons (m : List (Option Str)) (c : Char) (t : Str)
    (hc : c ≠ '$') :
    substituteCaptureGroups (c :: t) m = c :: substituteCaptureGroups t m := by
  unfold substituteCaptureGroups
  simp only [List.length_cons, substituteCaptureGroupsAux, if_neg hc]

/-- Unfolding lemma: a `$`-plus-digits reference at the head is replaced by
the resolved group value, and scanning continues after the digits. -/
theorem substituteCaptureGroups_ref (m : List (Option Str)) (ds rest : Str)
    (hds : ds ≠ []) (hdig : ∀ c ∈ ds, c.isDigit = true)
    (hrest : ∀ c ∈ rest.take 1, c.isDigit = false) :
    substituteCaptureGroups ('$' :: (ds ++ rest)) m =
      resolveGroupRef m ds ++ substituteCaptureGroups rest m := by
  have hspan := spanDigits_of_digits ds rest hdig hrest
  cases ds with
  | nil => exact absurd rfl hds
  | cons d dsx =>
    unfold substituteCaptureGroups
    simp only [List.length_cons, substituteCaptureGroupsAux, if_pos rfl, hspan, if_true,
      eq_self_iff_true]
    congr 1
    exact substituteCaptureGroupsAux_congr m ((d :: dsx) ++ rest).length rest
      (by simp only [List.length_append, List.length_cons]; omega)
      ((d :: dsx) ++ rest).length rest.length
      (by simp only [List.length_append, List.length_cons]; omega) le_rfl

/-- Claim C9: in the final replacement text, every reference `$n` (a `$`
followed by a maximal digit run) is replaced by the corresponding captured
group of the live match — except that when the match's first capture group
captured the empty string and `n > 1`, the reference is resolved against group
`n - 1` instead; an unresolved (undefined) group keeps the reference text
verbatim. -/
theorem c9_capture_group_substitution (pre ds rest : Str) (m : List (Option Str))
    (hpre : '$' ∉ pre) (hds : ds ≠ []) (hdig : ∀ c ∈ ds, c.isDigit = true)
    (hrest : ∀ c ∈ rest.take 1, c.isDigit = false) :
    substituteCaptureGroups (pre ++ '$' :: (ds ++ rest)) m =
      pre ++
        (match mGet m (if digitsToNat ds > 1 ∧ mGet m 1 = some [] then digitsToNat ds - 1
                       else digitsToNat ds) with
         | none => '$' :: ds
         | some v => v) ++
      substituteCaptureGroups rest m := by
  induction pre with
  | nil =>
    simpa [resolveGroupRef] using substituteCaptureGroups_ref m ds rest hds hdig hrest
  | cons c t ih =>
    have hc : c ≠ '$' := fun h => hpre (h ▸ List.mem_cons_self _ _)
    simp only [List.cons_append, substituteCaptureGroups_cons m c _ hc]
    rw [ih fun h => hpre (List.mem_cons_of_mem _ h)]

/-- Claim C9 witness: with a live match whose first capture group captured the
empty string, `$2` in `"a$2b"` resolves to group 1 (the empty string), so the
substitution yields `"ab"`. -/
theorem c9_capture_group_substitution_witness :
    substituteCaptureGroups (strOf "a" ++ '$' :: (strOf "2" ++ strOf "b"))
        [some (strOf "full"), some [], some (strOf "B"), some (strOf "C")] =
      strOf "ab" :=
  (c9_capture_group_substitution (strOf "a") (strOf "2") (strOf "b")
      [some (strOf "full"), some [], some (strOf "B"), some (strOf "C")]
      (by decide) (by decide) (by decide) (by decide)).trans (by decide)

/-- A nonempty string is not a prefix of the empty string. -/
theorem leadsWith_nil_right (lit : Str) (h : lit ≠ []) : leadsWith lit [] = false := by
  cases lit with
  | nil => exact absurd rfl h
  | cons c t => rfl

/-- The occurrence search never returns an index below its starting index. -/
theorem findOccurAux_ge (lit : Str) : ∀ (s : Str) (i st : Nat),
    findOccurAux lit s i = some st → i ≤ st := by
  intro s
  induction s with
  | nil =>
    intro i st h
    unfold findOccurAux at h
    split at h
    · exact (Option.some_inj.mp h) ▸ le_refl i
    · exact absurd h (by simp)
  | cons c t ih =>
    intro i st h
    unfold findOccurAux at h
    split at h
    · exact (Option.some_inj.mp h) ▸ le_refl i
    · exact le_trans (Nat.le_succ i) (ih (i + 1) st h)

/-- When `lit` does not occur in the scanned suffix, the non-overlapping scan
produces nothing. -/
theorem nonOverlapEndsFrom_none (lit : Str) (hlit : lit ≠ []) : ∀ (s : Str) (i : Nat),
    findOccurAux lit s i = none → nonOverlapEndsFrom lit s i = [] := by
  intro s
  induction s with
  | nil =>
    intro i _
    rw [nonOverlapEndsFrom, dif_neg (by simp [leadsWith_nil_right lit hlit])]
  | cons c t ih =>
    intro i h
    unfold findOccurAux at h
    by_cases hL : leadsWith lit (c :: t) = true
    · rw [if_pos hL] at h
      exact absurd h (by simp)
    · rw [if_neg hL] at h
      rw [nonOverlapEndsFrom, dif_neg (by simp [hL])]
      exact ih (i + 1) h

/-- The non-overlapping scan starts at the end of the leftmost occurrence and
resumes right after it. -/
theorem nonOverlapEndsFrom_some (lit : Str) (hlit : lit ≠ []) : ∀ (s : Str) (i st : Nat),
    findOccurAux lit s i = some st →
      nonOverlapEndsFrom lit s i = (st + lit.length) ::
        nonOverlapEndsFrom lit (s.drop (st + lit.length - i)) (st + lit.length) := by
  have hlen : 1 ≤ lit.length := by
    cases lit with
    | nil => exact absurd rfl hlit
    | cons _ _ => simp
  intro s
  induction s with
  | nil =>
    intro i st h
    unfold findOccurAux at h
    rw [if_neg (by simp [leadsWith_nil_right lit hlit])] at h
    exact absurd h (by simp)
  | cons c t ih =>
    intro i st h
    unfold findOccurAux at h
    by_cases hL : leadsWith lit (c :: t) = true
    · rw [if_pos hL] at h
      have hst : st = i := (Option.some_inj.mp h).symm
      subst hst
      rw [nonOverlapEndsFrom, dif_pos ⟨hlit, hL⟩]
      have harith : st + lit.length - st = lit.length := by omega
      rw [harith]
    · rw [if_neg hL] at h
      have hge := findOccurAux_ge lit t (i + 1) st h
      rw [nonOverlapEndsFrom, dif_neg (by simp [hL])]
      show nonOverlapEndsFrom lit t (i + 1) = _
      rw [ih (i + 1) st h]
      have harith : st + lit.length - i = (st + lit.length - (i + 1)) + 1 := by omega
      rw [harith, List.drop_succ_cons]

/-- The `matchesTrigger` scan loop over the escaped-literal pattern accepts
exactly the cursor positions that are ends of the leftmost non-overlapping
occurrences of the literal from the scan start, once the fuel covers the
remaining input. -/
theorem scanMatch_literal (lit input : Str) (c : Nat) (hlit : lit ≠ []) :
    ∀ (fuel i : Nat), input.length + 1 - i ≤ fuel →
      (scanMatch (execLiteral lit) false false input c fuel i = true ↔
        c ∈ nonOverlapEndsFrom lit (input.drop i) i) := by
  intro fuel
  induction fuel with
  | zero =>
    intro i hf
    have hdrop : input.drop i = [] := List.drop_eq_nil_of_le (by omega)
    have hocc : findOccurAux lit (input.drop i) i = none := by
      rw [hdrop]
      unfold findOccurAux
      rw [if_neg (by simp [leadsWith_nil_right lit hlit])]
    rw [nonOverlapEndsFrom_none lit hlit (input.drop i) i hocc]
    simp [scanMatch]
  | succ fuel ih =>
    intro i hf
    rcases hocc : findOccurAux lit (input.drop i) i with _ | st
    · have hexec : execLiteral lit input i = none := by
        simp [execLiteral, findOccurrenceFrom, hocc]
      rw [nonOverlapEndsFrom_none lit hlit (input.drop i) i hocc]
      simp [scanMatch, hexec]
    · have hge : i ≤ st := findOccurAux_ge lit (input.drop i) i st hocc
      have hlen : 1 ≤ lit.length := by
        cases lit with
        | nil => exact absurd rfl hlit
        | cons _ _ => simp
      have hexec : execLiteral lit input i =
          some { start := st, stop := st + lit.length,
                 cursorGroup := some (st + lit.length, st + lit.length) } := by
        simp [execLiteral, findOccurrenceFrom, hocc]
      have hdrop2 : (input.drop i).drop (st + lit.length - i) = input.drop (st + lit.length) := by
        rw [List.drop_drop]
        congr 1
        omega
      rw [nonOverlapEndsFrom_some lit hlit (input.drop i) i st hocc, hdrop2]
      by_cases hc : c = st + lit.length
      · subst hc
        simp [scanMatch, hexec]
      · have hstep : scanMatch (execLiteral lit) false false input c (fuel + 1) i =
            scanMatch (execLiteral lit) false false input c fuel (st + lit.length) := by
          simp only [scanMatch, hexec, Bool.not_false, eq_self_iff_true, if_true]
          have hcond : ¬(st + lit.length ≤ c ∧ c ≤ st + lit.length) :=
            fun hco => hc (le_antisymm hco.2 hco.1)
          rw [if_neg hcond]
          simp
        rw [hstep, ih (st + lit.length) (by omega)]
        simp [hc]

/-- `compileTrigger` on a placeholder-free, non-`/…/` literal trigger whose
escaped pattern the host engine accepts. -/
theorem compileTrigger_literal (lit : Str) (validPattern : Str → Bool)
    (hnm : scanMarkers lit = []) (hnr : isExplicitRegexTrigger lit = false) :
    compileTrigger lit false validPattern =
      { pattern := escapeRegex lit ++ strOf "(?<CURSOR>)"
        options := [strOf "instant"]
        hasCursorMarker := false
        isExplicitRegex := false
        allowsFlexibleCursor := false } := by
  unfold compileTrigger compileParts processTriggerPattern
  simp [hnr, hnm, buildPattern, firstMarkerOptions, strOf]

/-- Claim C2 counterexample: for the literal trigger `"aa"` and text `"aaa"`,
cursor offset 3 is the end of an occurrence of the literal (the one at index
1) and the activation kind is permitted, yet `matchesTrigger` rejects —
the global scan only visits non-overlapping occurrences, and after consuming
`"aa"` at index 0 it never sees the occurrence ending at 3. -/
theorem c2_overlap_counterexample :
    eventTypeAllowed (strOf "instant")
        (compileTrigger (strOf "aa") false (fun _ => true)).options = true ∧
    occursEndingAt (strOf "aa") (strOf "aaa") 3 = true ∧
    matchesTrigger (execLiteral (strOf "aa"))
        (compileTrigger (strOf "aa") false (fun _ => true)) (strOf "aaa") 3
        (strOf "instant") 4 = false := by
  decide

/-- Claim C2 (amended): for a literal trigger (not `/…/`-wrapped, no cursor
placeholder) and a permitted activation kind, `matchesTrigger` accepts iff the
cursor offset equals the end of one of the leftmost non-overlapping
occurrences of the literal that the global regex scan visits (not of an
arbitrary occurrence). -/
theorem c2_literal_matching (lit input : Str) (cursorPos : Nat) (eventType : Str)
    (validPattern : Str → Bool) (fuel : Nat)
    (hlit : lit ≠ []) (hnm : scanMarkers lit = [])
    (hnr : isExplicitRegexTrigger lit = false)
    (hfuel : input.length + 1 ≤ fuel) :
    matchesTrigger (execLiteral lit) (compileTrigger lit false validPattern)
        input cursorPos eventType fuel = true ↔
      (cursorPos ∈ nonOverlapEndsFrom lit input 0 ∧
        eventTypeAllowed eventType [strOf "instant"] = true) := by
  rw [compileTrigger_literal lit validPattern hnm hnr]
  unfold matchesTrigger
  have hscan := scanMatch_literal lit input cursorPos hlit fuel 0 (by omega)
  rw [List.drop_zero] at hscan
  by_cases hs : scanMatch (execLiteral lit) false false input cursorPos fuel 0 = true
  · rw [if_pos hs]
    exact ⟨fun h => ⟨hscan.mp hs, h⟩, fun h => h.2⟩
  · rw [if_neg hs]
    constructor
    · intro h
      exact absurd h (by simp)
    · intro h
      exact absurd (hscan.mpr h.1) hs

/-- Claim C2 witness: literal trigger `"ab"` in `"xab"` fires exactly at the
end of the occurrence, offset 3, under activation `"instant"`. -/
theorem c2_literal_matching_witness :
    matchesTrigger (execLiteral (strOf "ab"))
        (compileTrigger (strOf "ab") false (fun _ => true)) (strOf "xab") 3
        (strOf "instant") 5 = true :=
  (c2_literal_matching (strOf "ab") (strOf "xab") 3 (strOf "instant")
      (fun _ => true) 5 (by decide) (by decide) (by decide) (by decide)).mpr
    ⟨by
      rw [nonOverlapEndsFrom_some (strOf "ab") (by decide) (strOf "xab") 0 1 (by decide)]
      exact List.mem_cons_self _ _,
     by decide⟩

/-- `split('\n')` always produces at least one line. -/
theorem splitNl_ne_nil (s : Str) : splitNl s ≠ [] := by
  cases s with
  | nil => simp [splitNl]
  | cons c t =>
    unfold splitNl
    by_cases h : c = '\n'
    · simp [h]
    · rw [if_neg h]
      rcases splitNl t with _ | ⟨l, ls⟩ <;> simp

/-- The line list of a text spans exactly the text's length (content plus one
newline per non-final line). -/
theorem lineSpanLen_splitNl (s : Str) : lineSpanLen (splitNl s) = s.length := by
  induction s with
  | nil => rfl
  | cons c t ih =>
    unfold splitNl
    by_cases h : c = '\n'
    · rw [if_pos h]
      rcases hsp : splitNl t with _ | ⟨l, ls⟩
      · exact absurd hsp (splitNl_ne_nil t)
      · rw [hsp] at ih
        simp only [lineSpanLen, List.length_cons, List.length_nil]
        omega
    · rw [if_neg h]
      rcases hsp : splitNl t with _ | ⟨l, ls⟩
      · exact absurd hsp (splitNl_ne_nil t)
      · rw [hsp] at ih
        cases ls with
        | nil =>
          simp only [lineSpanLen, List.length_cons] at ih ⊢
          omega
        | cons l2 ls2 =>
          simp only [lineSpanLen, List.length_cons] at ih ⊢
          omega

/-- Round trip of the two position-conversion loops over one line list: the
looked-up `{line, ch}` converts back to the character index it came from. -/
theorem cipGo_sumLines (lines : List Str) :
    ∀ (idx cur k : Nat), lines ≠ [] → k ≤ lineSpanLen lines →
      idx ≤ (cipGo lines idx cur (cur + k)).line ∧
      sumLinesTo lines ((cipGo lines idx cur (cur + k)).line - idx) +
          (cipGo lines idx cur (cur + k)).ch = k := by
  induction lines with
  | nil => intro idx cur k h _; exact absurd rfl h
  | cons l ls ih =>
    intro idx cur k _ hk
    cases ls with
    | nil =>
      simp only [lineSpanLen] at hk
      by_cases hlt : cur + l.length > cur + k
      · simp only [cipGo, if_pos hlt]
        refine ⟨le_refl idx, ?_⟩
        simp only [Nat.sub_self, sumLinesTo]
        omega
      · simp only [cipGo, if_neg hlt]
        refine ⟨le_refl idx, ?_⟩
        simp only [Nat.sub_self, sumLinesTo]
        omega
    | cons l2 ls2 =>
      simp only [lineSpanLen] at hk
      by_cases hlt : cur + l.length + 1 > cur + k
      · simp only [cipGo, if_pos hlt]
        refine ⟨le_refl idx, ?_⟩
        simp only [Nat.sub_self, sumLinesTo]
        omega
      · simp only [cipGo, if_neg hlt]
        have hk2 : k - (l.length + 1) ≤ lineSpanLen (l2 :: ls2) := by omega
        have hcur : cur + l.length + 1 + (k - (l.length + 1)) = cur + k := by omega
        have := ih (idx + 1) (cur + l.length + 1) (k - (l.length + 1)) (by simp) hk2
        rw [hcur] at this
        obtain ⟨hline, hsum⟩ := this
        refine ⟨by omega, ?_⟩
        have hshift : (cipGo (l2 :: ls2) (idx + 1) (cur + l.length + 1) (cur + k)).line - idx =
            ((cipGo (l2 :: ls2) (idx + 1) (cur + l.length + 1) (cur + k)).line - (idx + 1)) + 1 := by
          omega
        rw [hshift]
        simp only [sumLinesTo]
        omega

/-- Claim C10: converting a flat character offset `k` (with `0 ≤ k ≤ length`)
to an editor `{line, ch}` position with `charIndexToEditorPos` and converting
back with `getCursorCharIndex` yields `k` again, for every buffer text —
including offsets pointing at newline characters and at the end of the text. -/
theorem c10_position_roundtrip (text : Str) (k : Nat) (hk : k ≤ text.length) :
    getCursorCharIndex text (charIndexToEditorPos text k) = k := by
  unfold getCursorCharIndex charIndexToEditorPos
  have hspan : k ≤ lineSpanLen (splitNl text) := by rw [lineSpanLen_splitNl]; exact hk
  have := cipGo_sumLines (splitNl text) 0 0 k (splitNl_ne_nil text) hspan
  rw [Nat.zero_add] at this
  obtain ⟨_, hsum⟩ := this
  simpa using hsum

/-- Claim C10 witness: in `"foo\nbtw\nbar"`, offset 7 (the second newline)
survives the round trip. -/
theorem c10_position_roundtrip_witness :
    getCursorCharIndex (strOf "foo\nbtw\nbar")
        (charIndexToEditorPos (strOf "foo\nbtw\nbar") 7) = 7 :=
  c10_position_roundtrip (strOf "foo\nbtw\nbar") 7 (by decide)

/-- Validation preserves the snippet count (every snippet, valid or not, is
reported back). -/
theorem validateAndParseSnippetsAux_length : ∀ (ss : List Snippet) (i0 : Nat) (seen : List Str),
    (validateAndParseSnippetsAux ss i0 seen).length = ss.length := by
  intro ss
  induction ss with
  | nil => intro i0 seen; rfl
  | cons s rest ih =>
    intro i0 seen
    unfold validateAndParseSnippetsAux
    by_cases hc : seen.contains s.trigger = true
    · rw [if_pos hc]
      simp [ih]
    · rw [if_neg hc]
      simp [ih]

/-- Step lemma: a duplicate head is emitted as the invalid
`"Duplicate trigger"` record. -/
theorem validateAndParseSnippetsAux_cons_dup (s : Snippet) (rest : List Snippet)
    (i0 : Nat) (seen : List Str) (hc : seen.contains s.trigger = true) :
    validateAndParseSnippetsAux (s :: rest) i0 seen =
      { id := mkSnippetId i0, trigger := s.trigger, replacement := [], commands := [],
        cursorMarkerOptions := [], regex := s.regex == some true, isValid := false,
        error := some (strOf "Duplicate trigger") }
        :: validateAndParseSnippetsAux rest (i0 + 1) seen := by
  simp only [validateAndParseSnippetsAux, hc, if_true]

/-- Step lemma: a fresh head is emitted valid and its trigger is added to the
accumulator. -/
theorem validateAndParseSnippetsAux_cons_fresh (s : Snippet) (rest : List Snippet)
    (i0 : Nat) (seen : List Str) (hc : ¬seen.contains s.trigger = true) :
    validateAndParseSnippetsAux (s :: rest) i0 seen =
      { id := mkSnippetId i0, trigger := s.trigger,
        replacement := normalizeField s.replacement,
        commands := normalizeField s.commands,
        cursorMarkerOptions := parseCursorMarkerOptions s.trigger,
        regex := s.regex == some true, isValid := true, error := none }
        :: validateAndParseSnippetsAux rest (i0 + 1) (s.trigger :: seen) := by
  simp only [validateAndParseSnippetsAux, hc, if_false]
  rfl

/-- Indexing transported along an equality of lists. -/
theorem getCongr {α : Type} (l l2 : List α) (h : l = l2) (j : Nat) (hj : j < l.length) :
    l.get ⟨j, hj⟩ = l2.get ⟨j, h ▸ hj⟩ := by
  subst h
  rfl

/-- Element `j + 1` of the validation output on a cons is element `j` of the
output on the tail (with the accumulator advanced by the head). -/
theorem validateAndParseSnippetsAux_get_succ (s : Snippet) (rest : List Snippet)
    (i0 : Nat) (seen : List Str) (j : Nat) (hj : j < rest.length)
    (hj2 : j + 1 < (validateAndParseSnippetsAux (s :: rest) i0 seen).length) :
    (validateAndParseSnippetsAux (s :: rest) i0 seen).get ⟨j + 1, hj2⟩ =
      (validateAndParseSnippetsAux rest (i0 + 1)
          (if seen.contains s.trigger = true then seen else s.trigger :: seen)).get
        ⟨j, by rw [validateAndParseSnippetsAux_length]; exact hj⟩ := by
  by_cases hc : seen.contains s.trigger = true
  · rw [if_pos hc]
    rw [getCongr _ _ (validateAndParseSnippetsAux_cons_dup s rest i0 seen hc) (j + 1) hj2]
    rfl
  · rw [if_neg hc]
    rw [getCongr _ _ (validateAndParseSnippetsAux_cons_fresh s rest i0 seen hc) (j + 1) hj2]
    rfl

/-- Element `0` of the validation output on a cons, duplicate case. -/
theorem validateAndParseSnippetsAux_get_zero_dup (s : Snippet) (rest : List Snippet)
    (i0 : Nat) (seen : List Str) (hc : seen.contains s.trigger = true)
    (h0 : 0 < (validateAndParseSnippetsAux (s :: rest) i0 seen).length) :
    (validateAndParseSnippetsAux (s :: rest) i0 seen).get ⟨0, h0⟩ =
      { id := mkSnippetId i0, trigger := s.trigger, replacement := [], commands := [],
        cursorMarkerOptions := [], regex := s.regex == some true, isValid := false,
        error := some (strOf "Duplicate trigger") } := by
  rw [getCongr _ _ (validateAndParseSnippetsAux_cons_dup s rest i0 seen hc) 0 h0]
  rfl

/-- Element `0` of the validation output on a cons, fresh case. -/
theorem validateAndParseSnippetsAux_get_zero_fresh (s : Snippet) (rest : List Snippet)
    (i0 : Nat) (seen : List Str) (hc : ¬seen.contains s.trigger = true)
    (h0 : 0 < (validateAndParseSnippetsAux (s :: rest) i0 seen).length) :
    (validateAndParseSnippetsAux (s :: rest) i0 seen).get ⟨0, h0⟩ =
      { id := mkSnippetId i0, trigger := s.trigger,
        replacement := normalizeField s.replacement,
        commands := normalizeField s.commands,
        cursorMarkerOptions := parseCursorMarkerOptions s.trigger,
        regex := s.regex == some true, isValid := true, error := none } := by
  rw [getCongr _ _ (validateAndParseSnippetsAux_cons_fresh s rest i0 seen hc) 0 h0]
  rfl

/-- A snippet whose trigger is already in the `triggerSet` accumulator, or
equals the trigger of an earlier snippet in the list, is emitted invalid with
error `"Duplicate trigger"` (and its trigger text preserved). -/
theorem validateAndParseSnippetsAux_dup : ∀ (ss : List Snippet) (i0 : Nat) (seen : List Str)
    (j : Nat) (hj : j < ss.length),
    (seen.contains ((ss.get ⟨j, hj⟩).trigger) = true ∨
      ∃ k, ∃ hk : k < j, (ss.get ⟨k, lt_trans hk hj⟩).trigger = (ss.get ⟨j, hj⟩).trigger) →
    ∃ hj2 : j < (validateAndParseSnippetsAux ss i0 seen).length,
      ((validateAndParseSnippetsAux ss i0 seen).get ⟨j, hj2⟩).isValid = false ∧
      ((validateAndParseSnippetsAux ss i0 seen).get ⟨j, hj2⟩).error =
        some (strOf "Duplicate trigger") ∧
      ((validateAndParseSnippetsAux ss i0 seen).get ⟨j, hj2⟩).trigger =
        (ss.get ⟨j, hj⟩).trigger := by
  intro ss
  induction ss with
  | nil => intro i0 seen j hj; exact absurd hj (by simp)
  | cons s rest ih =>
    intro i0 seen j hj hdup
    cases j with
    | zero =>
      have hc : seen.contains s.trigger = true := by
        rcases hdup with h | ⟨k, hk, _⟩
        · exact h
        · exact absurd hk (Nat.not_lt_zero k)
      refine ⟨by rw [validateAndParseSnippetsAux_length]; exact hj, ?_⟩
      rw [validateAndParseSnippetsAux_get_zero_dup s rest i0 seen hc]
      exact ⟨rfl, rfl, rfl⟩
    | succ j' =>
      have hj' : j' < rest.length := by simpa using hj
      have hdup' : (if seen.contains s.trigger = true then seen
            else s.trigger :: seen).contains ((rest.get ⟨j', hj'⟩).trigger) = true ∨
          ∃ k, ∃ hk : k < j',
            (rest.get ⟨k, lt_trans hk hj'⟩).trigger = (rest.get ⟨j', hj'⟩).trigger := by
        rcases hdup with h | ⟨k, hk, hkeq⟩
        · left
          split
          · exact h
          · rw [List.contains_cons, Bool.or_eq_true]
            exact Or.inr h
        · cases k with
          | zero =>
            have hs : s.trigger = (rest.get ⟨j', hj'⟩).trigger := hkeq
            left
            split
            case isTrue hc => rw [← hs]; exact hc
            case isFalse hc =>
              rw [← hs]
              simp [List.contains_cons]
          | succ k' => exact Or.inr ⟨k', by omega, hkeq⟩
      obtain ⟨hj2r, h1, h2, h3⟩ := ih (i0 + 1)
        (if seen.contains s.trigger = true then seen else s.trigger :: seen) j' hj' hdup'
      refine ⟨by rw [validateAndParseSnippetsAux_length]; exact hj, ?_⟩
      rw [validateAndParseSnippetsAux_get_succ s rest i0 seen j' hj']
      exact ⟨h1, h2, h3⟩

/-- A snippet whose trigger is neither in the accumulator nor equal to any
earlier snippet's trigger is emitted valid. -/
theorem validateAndParseSnippetsAux_first : ∀ (ss : List Snippet) (i0 : Nat) (seen : List Str)
    (j : Nat) (hj : j < ss.length),
    seen.contains ((ss.get ⟨j, hj⟩).trigger) = false →
    (∀ k, ∀ hk : k < j, (ss.get ⟨k, lt_trans hk hj⟩).trigger ≠ (ss.get ⟨j, hj⟩).trigger) →
    ∃ hj2 : j < (validateAndParseSnippetsAux ss i0 seen).length,
      ((validateAndParseSnippetsAux ss i0 seen).get ⟨j, hj2⟩).isValid = true := by
  intro ss
  induction ss with
  | nil => intro i0 seen j hj; exact absurd hj (by simp)
  | cons s rest ih =>
    intro i0 seen j hj hseen hearlier
    cases j with
    | zero =>
      have hc : seen.contains s.trigger = false := hseen
      refine ⟨by rw [validateAndParseSnippetsAux_length]; exact hj, ?_⟩
      rw [validateAndParseSnippetsAux_get_zero_fresh s rest i0 seen (by rw [hc]; simp)]
    | succ j' =>
      have hj' : j' < rest.length := by simpa using hj
      have hne : s.trigger ≠ (rest.get ⟨j', hj'⟩).trigger := fun h => hearlier 0 (Nat.succ_pos j') h
      have hearlier' : ∀ k, ∀ hk : k < j',
          (rest.get ⟨k, lt_trans hk hj'⟩).trigger ≠ (rest.get ⟨j', hj'⟩).trigger :=
        fun k hk => hearlier (k + 1) (by omega)
      have hseen' : (if seen.contains s.trigger = true then seen
          else s.trigger :: seen).contains ((rest.get ⟨j', hj'⟩).trigger) = false := by
        split
        · exact hseen
        · rw [List.contains_cons]
          simp only [Bool.or_eq_false_iff, beq_eq_false_iff_ne]
          exact ⟨fun h => hne h.symm, hseen⟩
      obtain ⟨hj2r, h1⟩ := ih (i0 + 1)
        (if seen.contains s.trigger = true then seen else s.trigger :: seen) j' hj' hseen'
        hearlier'
      refine ⟨by rw [validateAndParseSnippetsAux_length]; exact hj, ?_⟩
      rw [validateAndParseSnippetsAux_get_succ s rest i0 seen j' hj']
      exact h1

/-- Everything the activation-kind index serves up is a valid snippet. -/
theorem createSnippetMapGet_valid (parsed : List ParsedSnippet) (action : Str) :
    ∀ s ∈ createSnippetMapGet parsed action, s.isValid = true := by
  intro s hs
  unfold createSnippetMapGet at hs
  rw [List.mem_flatMap] at hs
  obtain ⟨x, _, hsx⟩ := hs
  by_cases hv : x.isValid
  · rw [if_pos hv] at hsx
    rw [List.mem_map] at hsx
    obtain ⟨_, _, rfl⟩ := hsx
    exact hv
  · rw [if_neg hv] at hsx
    exact absurd hsx (by simp)

/-- Claim C6: in `validateAndParseSnippets`, a snippet whose trigger equals
the trigger of an earlier snippet is marked invalid with error exactly
`"Duplicate trigger"`, while the first occurrence remains valid; the invalid
duplicate never appears in the activation-kind index built by
`createSnippetMap` (everything the index serves is valid), but it is still
present in the returned parsed-snippet list (the list keeps one entry per
input snippet, with the duplicate's trigger text). -/
theorem c6_duplicate_trigger (ss : List Snippet) (i j : Nat) (hij : i < j)
    (hj : j < ss.length)
    (htrig : (ss.get ⟨i, lt_trans hij hj⟩).trigger = (ss.get ⟨j, hj⟩).trigger)
    (hfirst : ∀ k, ∀ hk : k < i,
      (ss.get ⟨k, lt_trans hk (lt_trans hij hj)⟩).trigger ≠
        (ss.get ⟨i, lt_trans hij hj⟩).trigger) :
    (validateAndParseSnippets ss).length = ss.length ∧
    (∃ hj2 : j < (validateAndParseSnippets ss).length,
      ((validateAndParseSnippets ss).get ⟨j, hj2⟩).isValid = false ∧
      ((validateAndParseSnippets ss).get ⟨j, hj2⟩).error = some (strOf "Duplicate trigger") ∧
      ((validateAndParseSnippets ss).get ⟨j, hj2⟩).trigger = (ss.get ⟨j, hj⟩).trigger) ∧
    (∃ hi2 : i < (validateAndParseSnippets ss).length,
      ((validateAndParseSnippets ss).get ⟨i, hi2⟩).isValid = true) ∧
    (∀ action, ∀ s ∈ createSnippetMapGet (validateAndParseSnippets ss) action,
      s.isValid = true) := by
  refine ⟨validateAndParseSnippetsAux_length ss 0 [], ?_, ?_, ?_⟩
  · exact validateAndParseSnippetsAux_dup ss 0 [] j hj (Or.inr ⟨i, hij, htrig⟩)
  · exact validateAndParseSnippetsAux_first ss 0 [] i (lt_trans hij hj) rfl hfirst
  · intro action
    exact createSnippetMapGet_valid (validateAndParseSnippets ss) action

/-- Claim C6 witness: in the list `["aa", "bb", "aa"]` the snippet at index 2
is the invalid duplicate (error `"Duplicate trigger"`), the one at index 0
stays valid, and the list length is preserved. -/
theorem c6_duplicate_trigger_witness :
    (validateAndParseSnippets
        [{ trigger := strOf "aa" }, { trigger := strOf "bb" }, { trigger := strOf "aa" }]).length
      = 3 ∧
    (∃ hj2 : 2 < (validateAndParseSnippets
        [{ trigger := strOf "aa" }, { trigger := strOf "bb" },
         { trigger := strOf "aa" }]).length,
      ((validateAndParseSnippets
          [{ trigger := strOf "aa" }, { trigger := strOf "bb" },
           { trigger := strOf "aa" }]).get ⟨2, hj2⟩).isValid = false) ∧
    (∃ hi2 : 0 < (validateAndParseSnippets
        [{ trigger := strOf "aa" }, { trigger := strOf "bb" },
         { trigger := strOf "aa" }]).length,
      ((validateAndParseSnippets
          [{ trigger := strOf "aa" }, { trigger := strOf "bb" },
           { trigger := strOf "aa" }]).get ⟨0, hi2⟩).isValid = true) := by
  have h := c6_duplicate_trigger
    [{ trigger := strOf "aa" }, { trigger := strOf "bb" }, { trigger := strOf "aa" }]
    0 2 (by decide) (by decide) (by decide) (fun k hk => absurd hk (Nat.not_lt_zero k))
  obtain ⟨hlen, ⟨hj2, hv1, _, _⟩, ⟨hi2, hv2⟩, _⟩ := h
  exact ⟨hlen, ⟨hj2, hv1⟩, ⟨hi2, hv2⟩⟩

end AutoExpander
